import Mathlib

/-!
Verification of the Overleaf MCP bridge (src/server.py).

The development shallowly embeds the pure core of the server: the
section-patching regex of `update_overleaf_section`, the preview
renderer `_latex_preview`, the authenticated clone-URL construction of
`clone_overleaf_repo`, the stage/commit/push orchestration of the two
update tools, the temporary-directory registry, and the clone-failure
path of `list_overleaf_files`.  Text is modelled as `List Char`;
Python string helpers (`strip`, `splitlines`, `quote`) are given
faithful executable counterparts.
-/

namespace OverleafMcp

/-- Python whitespace for `str.strip` / `\s` (ASCII range). -/
def pySpace (c : Char) : Bool :=
  c == ' ' || c == '\t' || c == '\n' || c == '\r' || c == '\x0b' || c == '\x0c'

/-- Remove trailing Python whitespace. -/
def dropTrailingSpace (l : List Char) : List Char :=
  (l.reverse.dropWhile pySpace).reverse

/-- Python `str.strip()`. -/
def pyStrip (l : List Char) : List Char :=
  dropTrailingSpace (l.dropWhile pySpace)

/-- A regex word character (`\w` over ASCII input): letter, digit or underscore. -/
def wordChar (c : Char) : Bool :=
  c.isAlpha || c.isDigit || c == '_'

/-- Whether the last character of a token is a word character (`false` for an
empty token). -/
def lastIsWord (tok : List Char) : Bool :=
  match tok.getLast? with
  | some a => wordChar a
  | none => false

/-- `tokWB tok s` holds when `s` starts with the literal token `tok` and a
regex word boundary (`\b`) holds right after it, as in the lookahead
alternatives `\CMD\b` of the pattern in `update_overleaf_section`. -/
def tokWB (tok : List Char) (s : List Char) : Bool :=
  tok.isPrefixOf s &&
    (match s.drop tok.length with
     | [] => lastIsWord tok
     | b :: _ => lastIsWord tok != wordChar b)

/-- The lookahead of the pattern in `update_overleaf_section` (src/server.py
lines 271-278): the body stops before the next `\CMD`, `\section`,
`\subsection`, `\chapter`, `\cvsection` (each with a word boundary) or
`\end{document}`. -/
def isBoundary (cmd : List Char) (s : List Char) : Bool :=
  tokWB ('\\' :: cmd) s ||
  tokWB "\\section".data s ||
  tokWB "\\subsection".data s ||
  tokWB "\\chapter".data s ||
  tokWB "\\cvsection".data s ||
  "\\end{document}".data.isPrefixOf s

/-- Drop characters until the first position where the boundary lookahead
matches; `none` when no such position exists.  This is the non-greedy body
match `(.*?)(?=(...))` of the pattern. -/
def dropToBoundary (cmd : List Char) : List Char → Option (List Char)
  | [] => none
  | c :: cs => if isBoundary cmd (c :: cs) then some (c :: cs) else dropToBoundary cmd cs

/-- Match `\{title\}` literally at the start of `s` and return the remainder,
as produced by the escaped title group of the pattern. -/
def matchBraces (title : List Char) : List Char → Option (List Char)
  | [] => none
  | c :: r =>
    if c = '{' then
      if title.isPrefixOf r then
        match r.drop title.length with
        | [] => none
        | d :: r2 => if d = '}' then some r2 else none
      else none
    else none

/-- Match the optional star and the braced title (`\*?\{title\}`), returning
the star text consumed and the remainder.  The greedy `\*?` tries the starred
alternative first. -/
def matchAfterCmd (title : List Char) : List Char → Option (List Char × List Char)
  | [] => none
  | c :: r =>
    if c = '*' then
      match matchBraces title r with
      | some r3 => some (['*'], r3)
      | none =>
        match matchBraces title (c :: r) with
        | some r3 => some ([], r3)
        | none => none
    else
      match matchBraces title (c :: r) with
      | some r3 => some ([], r3)
      | none => none

/-- Match the header group `(\\CMD\*?\{TITLE\}\s*)` of the pattern at the
start of `s`.  Returns the matched header text (whitespace included, since
`\s*` is inside group 1) and the remainder.  Because every lookahead
alternative starts with a backslash, which is not whitespace, the greedy
`\s*` always keeps its maximal extent in a successful match. -/
def matchHeaderAt (cmd title : List Char) : List Char → Option (List Char × List Char)
  | [] => none
  | c :: r =>
    if c = '\\' then
      if cmd.isPrefixOf r then
        match matchAfterCmd title (r.drop cmd.length) with
        | none => none
        | some (star, r3) =>
          some (('\\' :: cmd) ++ star ++ ('{' :: title) ++ ('}' :: r3.takeWhile pySpace),
                r3.dropWhile pySpace)
      else none
    else none

/-- Attempt the whole pattern at the start of `s`: header group, then the
non-greedy body up to the lookahead boundary.  On success the replacement of
`replacer` (src/server.py lines 282-285) is applied: the header is kept
byte-for-byte and the body becomes `new_section_body.strip() + "\n"`. -/
def tryAt (cmd title nb : List Char) (s : List Char) : Option (List Char) :=
  match matchHeaderAt cmd title s with
  | none => none
  | some (hdr, rest) =>
    match dropToBoundary cmd rest with
    | none => none
    | some suffix => some (hdr ++ pyStrip nb ++ '\n' :: suffix)

/-- `regex.subn(replacer, text, count=1)`: scan left to right and replace the
leftmost full match; `none` when the pattern matches nowhere. -/
def replaceFirst (cmd title nb : List Char) : List Char → Option (List Char)
  | [] => none
  | c :: cs =>
    match tryAt cmd title nb (c :: cs) with
    | some r => some r
    | none => (replaceFirst cmd title nb cs).map (c :: ·)

/-- The section-patching step of `update_overleaf_section` (src/server.py
lines 265-293): patched text plus a flag telling whether a match was found
(`count == 1`). -/
def replaceSection (cmd title nb text : List Char) : List Char × Bool :=
  match replaceFirst cmd title nb text with
  | some t => (t, true)
  | none => (text, false)

/-! ## LatexPreviewRenderer (`_latex_preview`, src/server.py lines 89-133) -/

/-- Python `str.splitlines()` restricted to the line breaks that can occur in
the repository's text files: `\n`, `\r` and `\r\n`; no trailing empty line. -/
def pySplitlines : List Char → List (List Char)
  | [] => []
  | '\r' :: '\n' :: cs => [] :: pySplitlines cs
  | '\r' :: cs => [] :: pySplitlines cs
  | '\n' :: cs => [] :: pySplitlines cs
  | c :: cs =>
    match pySplitlines cs with
    | [] => [[c]]
    | l :: ls => (c :: l) :: ls

/-- Python `str.upper()` over ASCII text. -/
def pyUpper (l : List Char) : List Char :=
  l.map Char.toUpper

/-- The fixed recognized heading commands of `_latex_preview`
(src/server.py line 100). -/
def section_cmds : List (List Char) :=
  ["section".data, "subsection".data, "subsubsection".data, "cvsection".data,
   "chapter".data]

/-- Match `\{([^}]*)\}` at the start of `s`: an opening brace, a maximal run
of non-`}` characters, and a closing brace. -/
def braceOnly : List Char → Option (List Char)
  | [] => none
  | c :: r =>
    if c = '{' then
      match r.dropWhile (fun d => d != '}') with
      | [] => none
      | _ :: _ => some (r.takeWhile (fun d => d != '}'))
    else none

/-- Match `\*?\{([^}]*)\}` at the start of `s` (greedy optional star). -/
def braceTitle : List Char → Option (List Char)
  | [] => none
  | c :: r =>
    if c = '*' then braceOnly r else braceOnly (c :: r)

/-- Match the preview heading regex `\\([a-zA-Z]+)\*?\{([^}]*)\}`
(src/server.py line 116) at the start of `stripped`, returning the command
name (group 1) and the raw title (group 2). -/
def matchSectionRegex : List Char → Option (List Char × List Char)
  | [] => none
  | c :: r =>
    if c = '\\' then
      match r.takeWhile Char.isAlpha with
      | [] => none
      | n :: ame =>
        match braceTitle (r.dropWhile Char.isAlpha) with
        | none => none
        | some rawTitle => some (n :: ame, rawTitle)
    else none

/-- The `\item` branch and the default branch of the preview loop
(src/server.py lines 124-131). -/
def restLine (stripped : List Char) : List (List Char) :=
  if "\\item".data.isPrefixOf stripped then
    [('-' :: ' ' :: (stripped.drop 5).dropWhile pySpace)]
  else [stripped]

/-- The contribution of one input line to the preview output list `out`
(src/server.py lines 102-131). -/
def previewLine (line : List Char) : List (List Char) :=
  let stripped := pyStrip line
  if stripped = [] then []
  else if "%".data.isPrefixOf stripped then []
  else if "\\documentclass".data.isPrefixOf stripped then []
  else if "\\usepackage".data.isPrefixOf stripped then []
  else if "\\begin{document}".data.isPrefixOf stripped ||
          "\\end{document}".data.isPrefixOf stripped then []
  else
    match matchSectionRegex stripped with
    | some (nm, rawTitle) =>
      if nm ∈ section_cmds then
        let t := pyStrip rawTitle
        [[], pyUpper t, List.replicate t.length '-']
      else restLine stripped
    | none => restLine stripped

/-- `_latex_preview` (src/server.py lines 89-133): per-line transform,
joined with newlines and stripped. -/
def latex_preview (text : List Char) : List Char :=
  pyStrip (List.intercalate ['\n'] ((pySplitlines text).flatMap previewLine))

/-! ## CredentialedCloner URL construction (`clone_overleaf_repo`,
src/server.py lines 66-84) -/

/-- Characters Python `urllib.parse.quote` never encodes
(`_ALWAYS_SAFE`, with `safe=""`): ASCII letters, digits and `_.-~`. -/
def safeChar (c : Char) : Bool :=
  c.isAlpha || c.isDigit || c == '_' || c == '.' || c == '-' || c == '~'

/-- Uppercase hexadecimal digit for a value below 16. -/
def hexDigit : Nat → Char
  | 0 => '0' | 1 => '1' | 2 => '2' | 3 => '3' | 4 => '4' | 5 => '5'
  | 6 => '6' | 7 => '7' | 8 => '8' | 9 => '9' | 10 => 'A' | 11 => 'B'
  | 12 => 'C' | 13 => 'D' | 14 => 'E' | _ => 'F'

/-- UTF-8 bytes of a character, as natural numbers. -/
def utf8Bytes (c : Char) : List Nat :=
  let n := c.toNat
  if n < 0x80 then [n]
  else if n < 0x800 then [0xC0 + n / 0x40, 0x80 + n % 0x40]
  else if n < 0x10000 then
    [0xE0 + n / 0x1000, 0x80 + (n / 0x40) % 0x40, 0x80 + n % 0x40]
  else
    [0xF0 + n / 0x40000, 0x80 + (n / 0x1000) % 0x40, 0x80 + (n / 0x40) % 0x40,
     0x80 + n % 0x40]

/-- Percent-encode one byte as `%XX`. -/
def pctByte (b : Nat) : List Char :=
  ['%', hexDigit (b / 16), hexDigit (b % 16)]

/-- Python `urllib.parse.quote(token, safe="")` (src/server.py line 74). -/
def pyQuote (t : List Char) : List Char :=
  t.flatMap (fun c => if safeChar c then [c] else (utf8Bytes c).flatMap pctByte)

/-- Decimal rendering of a natural number (Python `str(port)`). -/
def digitChar : Nat → Char
  | 0 => '0' | 1 => '1' | 2 => '2' | 3 => '3' | 4 => '4' | 5 => '5'
  | 6 => '6' | 7 => '7' | 8 => '8' | _ => '9'

def natToCharsAux (n : Nat) (acc : List Char) : List Char :=
  if h : n = 0 then acc
  else natToCharsAux (n / 10) (digitChar (n % 10) :: acc)
termination_by n
decreasing_by exact Nat.div_lt_self (Nat.pos_of_ne_zero h) (by decide)

def natToChars (n : Nat) : List Char :=
  if n = 0 then ['0'] else natToCharsAux n []

/-- The relevant components of `urlparse(OVERLEAF_GIT_URL)` for an HTTPS URL
(the code checks the `https://` scheme and a present hostname before use). -/
structure ParsedUrl where
  hostname : List Char
  port : Option Nat
  path : List Char

/-- The optional `:{parsed.port}` suffix of the rebuilt netloc
(src/server.py lines 78-79). -/
def portSuffix : Option Nat → List Char
  | none => []
  | some p => ':' :: natToChars p

/-- The authenticated netloc `f"{user}:{password}@{host}"` plus optional port
(src/server.py lines 73-79): fixed username `git`, percent-encoded token as
password. -/
def authNetloc (u : ParsedUrl) (token : List Char) : List Char :=
  "git".data ++ ':' :: pyQuote token ++ '@' :: u.hostname ++ portSuffix u.port

/-- `urlunparse(parsed._replace(netloc=netloc))` for an HTTPS URL whose
params, query and fragment are empty (src/server.py line 81). -/
def authUrl (u : ParsedUrl) (token : List Char) : List Char :=
  "https://".data ++ authNetloc u token ++ u.path

/-- Split a list at the first occurrence of `sep`; `none` when absent. -/
def splitFirst (sep : Char) : List Char → Option (List Char × List Char)
  | [] => none
  | c :: cs =>
    if c = sep then some ([], cs)
    else (splitFirst sep cs).map (fun p => (c :: p.1, p.2))

/-- The authority components read back from a URL. -/
structure AuthParts where
  user : List Char
  password : List Char
  host : List Char
  portStr : List Char
deriving DecidableEq

/-- Split at the first occurrence of `sep`, returning the whole list and an
empty remainder when `sep` is absent. -/
def splitFirstD (sep : Char) (l : List Char) : List Char × List Char :=
  match splitFirst sep l with
  | none => (l, [])
  | some p => p

/-- Everything before the first occurrence of `sep` (the whole list when
`sep` is absent). -/
def cutAt (sep : Char) (l : List Char) : List Char :=
  match splitFirst sep l with
  | none => l
  | some p => p.1

/-- Modelled from the spec: parse the authority of an `https://` URL back
into user, password, host and port text, to check what
`clone_overleaf_repo` constructed. -/
def parseAuthUrl (url : List Char) : Option AuthParts :=
  if "https://".data.isPrefixOf url then
    match splitFirst '@' (url.drop 8) with
    | none => none
    | some (userinfo, hostpart) =>
      some ⟨(splitFirstD ':' userinfo).1, (splitFirstD ':' userinfo).2,
            (splitFirstD ':' (cutAt '/' hostpart)).1,
            (splitFirstD ':' (cutAt '/' hostpart)).2⟩
  else none

/-- The characters percent-encoding can produce besides the safe set. -/
def pctChars : List Char :=
  ['%', '0', '1', '2', '3', '4', '5', '6', '7', '8', '9', 'A', 'B', 'C', 'D', 'E', 'F']

/-- The port text expected back from the authority parser: empty when the
base URL has no port, else the decimal digits. -/
def portDigits : Option Nat → List Char
  | none => []
  | some p => natToChars p

/-! ## CommitPublisher and the tool layer (src/server.py lines 190-208 and
296-319) -/

/-- The git subprocess invocations a tool can make after a successful clone. -/
inductive GitCmd
  | configName
  | configEmail
  | addPath
  | commitCmd
  | pushMain
  | pushMaster
deriving DecidableEq

/-- The push sequence of both update tools (src/server.py lines 202-206 and
311-314): try `git push origin main`; on failure try `git push origin
master` once, outside any handler, so a second failure raises.  The pair is
the list of attempted pushes and the outcome, where `Except.error` models
the uncaught `RuntimeError` carrying the captured diagnostics of the failed
`master` push. -/
def publishPush (pushMainOk pushMasterOk : Bool) (masterDiag : List Char) :
    List GitCmd × Except (List Char) Unit :=
  if pushMainOk then ([GitCmd.pushMain], Except.ok ())
  else if pushMasterOk then ([GitCmd.pushMain, GitCmd.pushMaster], Except.ok ())
  else ([GitCmd.pushMain, GitCmd.pushMaster], Except.error masterDiag)

/-- The distinct returned status messages of `update_overleaf_section`. -/
inductive SectionOutcome
  | notFound
  | noChanges
  | success
deriving DecidableEq

/-- The observable run of one update tool invocation: its result
(`Except.error` models an exception escaping the tool function), the final
content of the target file inside the workspace, and the git commands
attempted after the clone. -/
structure SectionRun where
  result : Except (List Char) SectionOutcome
  finalText : List Char
  cmds : List GitCmd

/-- `update_overleaf_section` after a successful clone of a file holding
`origText` (src/server.py lines 263-319).  The external git client is
modelled from the spec: `git commit` reports nothing to commit exactly when
the staged content equals the cloned content, and the push results are
oracle parameters. -/
def update_overleaf_section (origText cmd title nb : List Char)
    (pushMainOk pushMasterOk : Bool) (masterDiag : List Char) : SectionRun :=
  match replaceFirst cmd title nb origText with
  | none => ⟨Except.ok SectionOutcome.notFound, origText, []⟩
  | some newText =>
    if newText = origText then
      ⟨Except.ok SectionOutcome.noChanges, newText,
       [GitCmd.configName, GitCmd.configEmail, GitCmd.addPath, GitCmd.commitCmd]⟩
    else
      let p := publishPush pushMainOk pushMasterOk masterDiag
      ⟨p.2.map (fun _ => SectionOutcome.success), newText,
       [GitCmd.configName, GitCmd.configEmail, GitCmd.addPath, GitCmd.commitCmd] ++ p.1⟩

/-- `update_overleaf_file` after a successful clone (src/server.py lines
170-208): overwrites the whole file, then the same publish sequence. -/
def update_overleaf_file (origText newContent : List Char)
    (pushMainOk pushMasterOk : Bool) (masterDiag : List Char) : SectionRun :=
  if newContent = origText then
    ⟨Except.ok SectionOutcome.noChanges, newContent,
     [GitCmd.configName, GitCmd.configEmail, GitCmd.addPath, GitCmd.commitCmd]⟩
  else
    let p := publishPush pushMainOk pushMasterOk masterDiag
    ⟨p.2.map (fun _ => SectionOutcome.success), newContent,
     [GitCmd.configName, GitCmd.configEmail, GitCmd.addPath, GitCmd.commitCmd] ++ p.1⟩

/-! ## Workspace registry (src/server.py lines 59-64) -/

/-- The process-global `_TMPDIRS` list after `clone_overleaf_repo` creates a
temporary directory `d`: the code appends the `TemporaryDirectory` handle to
`globals()["_TMPDIRS"]`, and no code path ever removes an entry, so the
registry after a completed operation still holds `d`. -/
def tmpdirsAfterOperation (tmpdirs : List Nat) (d : Nat) : List Nat :=
  tmpdirs ++ [d]

/-! ## FileLister (`list_overleaf_files`, src/server.py lines 211-235) -/

/-- `list_overleaf_files`: on a clone failure `e` the `except` branch returns
the one-element list `[f"Git clone failed: {e}"]` (src/server.py lines
218-221); otherwise it returns the walked relative paths with `.git`
excluded, abstracted here as the `walkFiles` parameter. -/
def list_overleaf_files (cloneResult : Except (List Char) Unit)
    (walkFiles : List (List Char)) : List (List Char) :=
  match cloneResult with
  | Except.error e => ["Git clone failed: ".data ++ e]
  | Except.ok _ => walkFiles

/-- Decidable absence of the heading pattern: no suffix of the text matches
the header group `\CMD\*?\{TITLE\}`.  This is what "the title does not occur
under the given heading command" means for the literal pattern. -/
def noHeaderOcc (cmd title : List Char) : List Char → Bool
  | [] => true
  | c :: cs => (matchHeaderAt cmd title (c :: cs)).isNone && noHeaderOcc cmd title cs

/-! ## Helper lemmas -/

theorem isPrefixOf_append_self (l t : List Char) : l.isPrefixOf (l ++ t) = true := by
  induction l with
  | nil => simp
  | cons a as ih => simp [List.isPrefixOf_cons₂, ih]

theorem takeWhile_append_eq {α : Type} (p : α → Bool) (a : List α) (c : α) (t : List α)
    (ha : ∀ x ∈ a, p x = true) (hc : p c = false) :
    (a ++ c :: t).takeWhile p = a := by
  induction a with
  | nil => simp [List.takeWhile_cons, hc]
  | cons x xs ih =>
    have hx : p x = true := ha x (by simp)
    simp [List.takeWhile_cons, hx]
    exact ih (fun y hy => ha y (by simp [hy]))

theorem dropWhile_append_eq {α : Type} (p : α → Bool) (a : List α) (c : α) (t : List α)
    (ha : ∀ x ∈ a, p x = true) (hc : p c = false) :
    (a ++ c :: t).dropWhile p = c :: t := by
  induction a with
  | nil => simp [List.dropWhile_cons, hc]
  | cons x xs ih =>
    have hx : p x = true := ha x (by simp)
    simp [List.dropWhile_cons, hx]
    exact ih (fun y hy => ha y (by simp [hy]))

theorem pySpace_ne_bs {c : Char} (h : pySpace c = true) : c ≠ '\\' := by
  intro he
  subst he
  simp [pySpace] at h

theorem isPrefixOf_bs_cons_ne {c : Char} (tk s : List Char) (h : c ≠ '\\') :
    ('\\' :: tk).isPrefixOf (c :: s) = false := by
  simp [List.isPrefixOf]
  intro he
  exact absurd he.symm h

theorem tokWB_bs_cons_ne {c : Char} (tk s : List Char) (h : c ≠ '\\') :
    tokWB ('\\' :: tk) (c :: s) = false := by
  simp [tokWB, isPrefixOf_bs_cons_ne tk s h]

theorem isBoundary_cons_ne {c : Char} (cmd s : List Char) (h : c ≠ '\\') :
    isBoundary cmd (c :: s) = false := by
  have h1 : "\\section".data = '\\' :: "section".data := rfl
  have h2 : "\\subsection".data = '\\' :: "subsection".data := rfl
  have h3 : "\\chapter".data = '\\' :: "chapter".data := rfl
  have h4 : "\\cvsection".data = '\\' :: "cvsection".data := rfl
  have h5 : "\\end{document}".data = '\\' :: "end{document}".data := rfl
  simp [isBoundary, h1, h2, h3, h4, h5, tokWB_bs_cons_ne _ _ h,
    isPrefixOf_bs_cons_ne _ _ h]

theorem matchHeaderAt_cons_ne {c : Char} (cmd title s : List Char) (h : c ≠ '\\') :
    matchHeaderAt cmd title (c :: s) = none := by
  simp [matchHeaderAt, h]

theorem tryAt_cons_ne {c : Char} (cmd title nb s : List Char) (h : c ≠ '\\') :
    tryAt cmd title nb (c :: s) = none := by
  simp [tryAt, matchHeaderAt_cons_ne cmd title s h]

theorem dropToBoundary_append_no_bs (cmd : List Char) (xs rest : List Char)
    (hx : ∀ c ∈ xs, c ≠ '\\') :
    dropToBoundary cmd (xs ++ rest) = dropToBoundary cmd rest := by
  induction xs with
  | nil => rfl
  | cons x xs ih =>
    have hx0 : x ≠ '\\' := hx x (by simp)
    simp [dropToBoundary, isBoundary_cons_ne cmd _ hx0]
    exact ih (fun c hc => hx c (by simp [hc]))

theorem dropToBoundary_none_no_bs (cmd : List Char) (xs : List Char)
    (hx : ∀ c ∈ xs, c ≠ '\\') :
    dropToBoundary cmd xs = none := by
  have h := dropToBoundary_append_no_bs cmd xs [] hx
  simpa using h

theorem replaceFirst_append_no_bs (cmd title nb : List Char) (pre rest : List Char)
    (hp : ∀ c ∈ pre, c ≠ '\\') :
    replaceFirst cmd title nb (pre ++ rest) =
      (replaceFirst cmd title nb rest).map (pre ++ ·) := by
  induction pre with
  | nil =>
    simp only [List.nil_append]
    cases replaceFirst cmd title nb rest <;> rfl
  | cons x xs ih =>
    have hx0 : x ≠ '\\' := hp x (by simp)
    have ih2 := ih (fun c hc => hp c (by simp [hc]))
    have step : replaceFirst cmd title nb ((x :: xs) ++ rest) =
        (replaceFirst cmd title nb (xs ++ rest)).map (x :: ·) := by
      simp [replaceFirst, tryAt_cons_ne cmd title nb _ hx0]
    rw [step, ih2]
    cases replaceFirst cmd title nb rest <;> rfl

theorem replaceFirst_none_no_bs (cmd title nb : List Char) (xs : List Char)
    (hx : ∀ c ∈ xs, c ≠ '\\') :
    replaceFirst cmd title nb xs = none := by
  have h := replaceFirst_append_no_bs cmd title nb xs [] hx
  simp only [List.append_nil] at h
  simp [h, replaceFirst]

theorem matchHeaderAt_heading (cmd title rest : List Char) :
    matchHeaderAt cmd title (('\\' :: cmd) ++ ('{' :: title) ++ ('}' :: rest)) =
      some (('\\' :: cmd) ++ ('{' :: title) ++ ('}' :: rest.takeWhile pySpace),
            rest.dropWhile pySpace) := by
  simp only [List.cons_append, List.append_assoc]
  simp [matchHeaderAt, isPrefixOf_append_self, List.drop_left, matchAfterCmd,
    matchBraces]

theorem matchHeaderAt_ext_mismatch (cmd t1 : List Char) (d : Char) (ds rest : List Char)
    (hd : d ≠ '}') :
    matchHeaderAt cmd t1 (('\\' :: cmd) ++ ('{' :: (t1 ++ d :: ds)) ++ ('}' :: rest)) =
      none := by
  simp only [List.cons_append, List.append_assoc]
  have harr : t1 ++ (d :: (ds ++ '}' :: rest)) =
      t1 ++ d :: ds ++ '}' :: rest := by simp
  simp [matchHeaderAt, isPrefixOf_append_self, matchAfterCmd, matchBraces, ← harr,
    List.drop_left, hd]

theorem tokWB_append_self (tok : List Char) (b : Char) (t : List Char)
    (hb : (lastIsWord tok != wordChar b) = true) :
    tokWB tok (tok ++ b :: t) = true := by
  simp only [tokWB, isPrefixOf_append_self, List.drop_left, hb, Bool.and_self]

theorem lastIsWord_of_alpha (cmd : List Char) (hne : cmd ≠ [])
    (hal : ∀ c ∈ cmd, c.isAlpha = true) : lastIsWord ('\\' :: cmd) = true := by
  induction cmd with
  | nil => exact absurd rfl hne
  | cons a as ih =>
    cases as with
    | nil => simp [lastIsWord, List.getLast?, wordChar, hal a (by simp)]
    | cons b bs =>
      have h2 := ih (by simp) (fun c hc => hal c (by simp [hc]))
      simp only [lastIsWord, List.getLast?_cons_cons] at h2 ⊢
      exact h2

theorem isBoundary_self_heading (cmd : List Char) (rest : List Char)
    (hne : cmd ≠ []) (hal : ∀ c ∈ cmd, c.isAlpha = true) :
    isBoundary cmd (('\\' :: cmd) ++ ('{' :: rest)) = true := by
  have htok : tokWB ('\\' :: cmd) (('\\' :: cmd) ++ ('{' :: rest)) = true := by
    apply tokWB_append_self
    rw [lastIsWord_of_alpha cmd hne hal]
    decide
  simp only [isBoundary, htok, Bool.true_or]

theorem isBoundary_section (cmd : List Char) (rest : List Char) :
    isBoundary cmd ("\\section".data ++ ('{' :: rest)) = true := by
  have htok : tokWB "\\section".data ("\\section".data ++ ('{' :: rest)) = true :=
    tokWB_append_self _ _ _ (by decide)
  simp only [isBoundary, htok, Bool.true_or, Bool.or_true]

theorem isBoundary_endDoc (cmd : List Char) (tail : List Char) :
    isBoundary cmd ("\\end{document}".data ++ tail) = true := by
  have htok : ("\\end{document}".data).isPrefixOf ("\\end{document}".data ++ tail) = true :=
    isPrefixOf_append_self _ _
  simp only [isBoundary, htok, Bool.or_true]

theorem noHeaderOcc_replaceFirst (cmd title nb : List Char) (text : List Char)
    (h : noHeaderOcc cmd title text = true) :
    replaceFirst cmd title nb text = none := by
  induction text with
  | nil => rfl
  | cons c cs ih =>
    simp only [noHeaderOcc, Bool.and_eq_true] at h
    have h1 : matchHeaderAt cmd title (c :: cs) = none := by
      rcases h with ⟨hh, _⟩
      cases he : matchHeaderAt cmd title (c :: cs) with
      | none => rfl
      | some v => rw [he] at hh; simp [Option.isNone] at hh
    simp [replaceFirst, tryAt, h1, ih h.2]

theorem dropTrailingSpace_isPrefixOfSelf (x : List Char) : dropTrailingSpace x <+: x := by
  have h : (x.reverse.dropWhile pySpace).reverse <+: x.reverse.reverse :=
    List.reverse_prefix.mpr (List.dropWhile_suffix pySpace)
  simpa [dropTrailingSpace] using h

theorem pyStrip_subset (l : List Char) : pyStrip l ⊆ l := by
  intro c hc
  have h1 : c ∈ l.dropWhile pySpace := (dropTrailingSpace_isPrefixOfSelf _).subset hc
  exact (List.dropWhile_suffix pySpace).subset h1

theorem dropWhile_head_false {p : Char → Bool} {l : List Char} {c : Char} {r : List Char}
    (h : l.dropWhile p = c :: r) : p c = false := by
  induction l with
  | nil => simp at h
  | cons a as ih =>
    rw [List.dropWhile_cons] at h
    by_cases hp : p a
    · rw [if_pos hp] at h
      exact ih h
    · rw [if_neg hp] at h
      injection h with h1 _
      subst h1
      simpa using hp

theorem pyStrip_head_false {l : List Char} {c : Char} {r : List Char}
    (h : pyStrip l = c :: r) : pySpace c = false := by
  have hpre : pyStrip l <+: l.dropWhile pySpace := dropTrailingSpace_isPrefixOfSelf _
  rw [h] at hpre
  rcases hpre with ⟨t, ht⟩
  have h2 : l.dropWhile pySpace = c :: (r ++ t) := by
    rw [← ht]
    simp
  exact dropWhile_head_false h2

theorem dropToBoundary_eq_self_of_boundary (cmd : List Char) (s : List Char)
    (hne : s ≠ []) (hb : isBoundary cmd s = true) :
    dropToBoundary cmd s = some s := by
  cases s with
  | nil => exact absurd rfl hne
  | cons c cs => simp [dropToBoundary, hb]

theorem tryAt_heading (cmd title nb w rest2 : List Char) (c0 : Char) (m : List Char)
    (hw : ∀ c ∈ w, pySpace c = true) (hc0s : pySpace c0 = false) (hc0 : c0 ≠ '\\')
    (hm : ∀ c ∈ m, c ≠ '\\') (hbd : dropToBoundary cmd rest2 = some rest2) :
    tryAt cmd title nb (('\\' :: cmd) ++ ('{' :: title) ++ ('}' :: (w ++ c0 :: (m ++ rest2)))) =
      some (('\\' :: cmd) ++ ('{' :: title) ++ ('}' :: (w ++ (pyStrip nb ++ '\n' :: rest2)))) := by
  have hckey : ∀ c ∈ (c0 :: m), c ≠ '\\' := by
    intro c hc
    rcases List.mem_cons.mp hc with rfl | hmem
    · exact hc0
    · exact hm c hmem
  have hdb : dropToBoundary cmd (c0 :: (m ++ rest2)) = some rest2 := by
    have h2 : (c0 :: m) ++ rest2 = c0 :: (m ++ rest2) := rfl
    rw [← h2, dropToBoundary_append_no_bs cmd (c0 :: m) rest2 hckey, hbd]
  simp only [tryAt, matchHeaderAt_heading,
    takeWhile_append_eq pySpace w c0 (m ++ rest2) hw hc0s,
    dropWhile_append_eq pySpace w c0 (m ++ rest2) hw hc0s, hdb]
  simp [List.append_assoc]

theorem replaceFirst_pre_heading (cmd title nb pre tail1 r : List Char)
    (hpre : ∀ c ∈ pre, c ≠ '\\')
    (htry : tryAt cmd title nb ('\\' :: tail1) = some r) :
    replaceFirst cmd title nb (pre ++ '\\' :: tail1) = some (pre ++ r) := by
  rw [replaceFirst_append_no_bs cmd title nb pre _ hpre]
  rw [replaceFirst, htry]
  rfl

/-- Claim C4: `replaceSection` modifies only the body of the matched section:
the matched heading (and the whitespace after it, which is part of the header
group) is preserved byte-for-byte, the new body is the caller-supplied text
stripped plus exactly one newline, and everything before the heading and from
the next heading marker (here a following `\section{...}`) onward is
unchanged. -/
theorem C4_frame_effect (cmd t nb pre w t2 b2 m : List Char) (c0 : Char)
    (hpre : ∀ c ∈ pre, c ≠ '\\')
    (hw : ∀ c ∈ w, pySpace c = true)
    (hc0s : pySpace c0 = false) (hc0 : c0 ≠ '\\')
    (hm : ∀ c ∈ m, c ≠ '\\') :
    replaceSection cmd t nb
      (pre ++ ('\\' :: cmd) ++ ('{' :: t) ++ ('}' :: (w ++ c0 :: m)) ++
        ("\\section".data ++ ('{' :: t2) ++ ('}' :: b2))) =
    (pre ++ ('\\' :: cmd) ++ ('{' :: t) ++ ('}' :: w) ++ pyStrip nb ++
      '\n' :: ("\\section".data ++ ('{' :: t2) ++ ('}' :: b2)), true) := by
  have hB : dropToBoundary cmd ("\\section".data ++ ('{' :: (t2 ++ '}' :: b2))) =
      some ("\\section".data ++ ('{' :: (t2 ++ '}' :: b2))) := by
    apply dropToBoundary_eq_self_of_boundary
    · simp
    · exact isBoundary_section cmd (t2 ++ '}' :: b2)
  have htry := tryAt_heading cmd t nb w ("\\section".data ++ ('{' :: (t2 ++ '}' :: b2)))
    c0 m hw hc0s hc0 hm hB
  have htry2 : tryAt cmd t nb
      ('\\' :: (cmd ++ '{' :: (t ++ '}' :: (w ++ c0 :: (m ++
        ("\\section".data ++ ('{' :: (t2 ++ '}' :: b2)))))))) =
      some ('\\' :: (cmd ++ '{' :: (t ++ '}' :: (w ++ (pyStrip nb ++ '\n' ::
        ("\\section".data ++ ('{' :: (t2 ++ '}' :: b2)))))))) := by
    simpa [List.append_assoc] using htry
  have hrf := replaceFirst_pre_heading cmd t nb pre _ _ hpre htry2
  simp only [replaceSection]
  rw [show pre ++ ('\\' :: cmd) ++ ('{' :: t) ++ ('}' :: (w ++ c0 :: m)) ++
      ("\\section".data ++ ('{' :: t2) ++ ('}' :: b2)) =
      pre ++ '\\' :: (cmd ++ '{' :: (t ++ '}' :: (w ++ c0 :: (m ++
        ("\\section".data ++ ('{' :: (t2 ++ '}' :: b2))))))) by
    simp [List.append_assoc]]
  rw [hrf]
  simp [List.append_assoc]

theorem alpha_ne_bs {c : Char} (h : c.isAlpha = true) : c ≠ '\\' := by
  intro he
  subst he
  exact absurd h (by decide)

theorem tryAt_of_matchHeader_none {cmd title nb : List Char} {s : List Char}
    (h : matchHeaderAt cmd title s = none) : tryAt cmd title nb s = none := by
  simp [tryAt, h]

theorem replaceFirst_cons_fail {cmd title nb : List Char} {c : Char} {cs : List Char}
    (h : tryAt cmd title nb (c :: cs) = none) :
    replaceFirst cmd title nb (c :: cs) = (replaceFirst cmd title nb cs).map (c :: ·) := by
  rw [replaceFirst, h]

/-- Claim C1: `replaceSection` replaces only the first match in document
order, matching the heading command and title as literal text with an exact
title: a preceding heading of the same command whose title merely extends the
requested title (`t ++ e0 :: ext`) is skipped, the first exact-title heading
has its body replaced, and the subsequent identical heading and everything
after it are untouched. -/
theorem C1_first_exact_match (cmd t ext mid w2 m2 tail nb pre : List Char) (e0 c2 : Char)
    (hcmdne : cmd ≠ []) (hcmdal : ∀ c ∈ cmd, c.isAlpha = true)
    (hpre : ∀ c ∈ pre, c ≠ '\\')
    (he0 : e0 ≠ '}') (hebs : e0 ≠ '\\') (hext : ∀ c ∈ ext, c ≠ '\\')
    (hti : ∀ c ∈ t, c ≠ '\\')
    (hmid : ∀ c ∈ mid, c ≠ '\\')
    (hw2 : ∀ c ∈ w2, pySpace c = true)
    (hc2s : pySpace c2 = false) (hc2 : c2 ≠ '\\')
    (hm2 : ∀ c ∈ m2, c ≠ '\\') :
    replaceSection cmd t nb
      (pre ++ ('\\' :: cmd) ++ ('{' :: (t ++ e0 :: ext)) ++ ('}' :: mid) ++
       ('\\' :: cmd) ++ ('{' :: t) ++ ('}' :: (w2 ++ c2 :: m2)) ++
       ('\\' :: cmd) ++ ('{' :: t) ++ ('}' :: tail)) =
    (pre ++ ('\\' :: cmd) ++ ('{' :: (t ++ e0 :: ext)) ++ ('}' :: mid) ++
     ('\\' :: cmd) ++ ('{' :: t) ++ ('}' :: w2) ++ pyStrip nb ++
     '\n' :: (('\\' :: cmd) ++ ('{' :: t) ++ ('}' :: tail)), true) := by
  -- the third heading is the boundary that ends the replaced body
  have hbnd : dropToBoundary cmd (('\\' :: cmd) ++ ('{' :: (t ++ '}' :: tail))) =
      some (('\\' :: cmd) ++ ('{' :: (t ++ '}' :: tail))) := by
    apply dropToBoundary_eq_self_of_boundary
    · simp
    · exact isBoundary_self_heading cmd (t ++ '}' :: tail) hcmdne hcmdal
  -- the second heading matches and its body is replaced
  have htry := tryAt_heading cmd t nb w2 (('\\' :: cmd) ++ ('{' :: (t ++ '}' :: tail)))
    c2 m2 hw2 hc2s hc2 hm2 hbnd
  have htry2 : tryAt cmd t nb
      ('\\' :: (cmd ++ '{' :: (t ++ '}' :: (w2 ++ c2 :: (m2 ++
        '\\' :: (cmd ++ '{' :: (t ++ '}' :: tail))))))) =
      some ('\\' :: (cmd ++ '{' :: (t ++ '}' :: (w2 ++ (pyStrip nb ++ '\n' ::
        ('\\' :: (cmd ++ '{' :: (t ++ '}' :: tail)))))))) := by
    simpa [List.append_assoc] using htry
  -- scanning from the interior of the first heading up to the second heading
  have hinterior : ∀ c ∈ cmd ++ '{' :: (t ++ e0 :: (ext ++ '}' :: mid)), c ≠ '\\' := by
    intro c hc
    simp only [List.mem_append, List.mem_cons] at hc
    rcases hc with hc | rfl | hc
    · exact alpha_ne_bs (hcmdal c hc)
    · decide
    · rcases hc with hc | rfl | hc
      · exact hti c hc
      · exact hebs
      · rcases hc with hc | rfl | hc
        · exact hext c hc
        · decide
        · exact hmid c hc
  have hrf2 : replaceFirst cmd t nb
      ((cmd ++ '{' :: (t ++ e0 :: (ext ++ '}' :: mid))) ++
        '\\' :: (cmd ++ '{' :: (t ++ '}' :: (w2 ++ c2 :: (m2 ++
          '\\' :: (cmd ++ '{' :: (t ++ '}' :: tail))))))) =
      some ((cmd ++ '{' :: (t ++ e0 :: (ext ++ '}' :: mid))) ++
        '\\' :: (cmd ++ '{' :: (t ++ '}' :: (w2 ++ (pyStrip nb ++ '\n' ::
          ('\\' :: (cmd ++ '{' :: (t ++ '}' :: tail)))))))) :=
    replaceFirst_pre_heading cmd t nb _ _ _ hinterior htry2
  -- the first heading title does not match exactly, so scanning steps past it
  have hfail : matchHeaderAt cmd t
      ('\\' :: (cmd ++ '{' :: (t ++ e0 :: (ext ++ '}' :: (mid ++
        '\\' :: (cmd ++ '{' :: (t ++ '}' :: (w2 ++ c2 :: (m2 ++
          '\\' :: (cmd ++ '{' :: (t ++ '}' :: tail))))))))))) = none := by
    have h := matchHeaderAt_ext_mismatch cmd t e0 ext
      (mid ++ '\\' :: (cmd ++ '{' :: (t ++ '}' :: (w2 ++ c2 :: (m2 ++
        '\\' :: (cmd ++ '{' :: (t ++ '}' :: tail))))))) he0
    simpa [List.append_assoc] using h
  have hrf2n : replaceFirst cmd t nb
      (cmd ++ '{' :: (t ++ e0 :: (ext ++ '}' :: (mid ++
        '\\' :: (cmd ++ '{' :: (t ++ '}' :: (w2 ++ c2 :: (m2 ++
          '\\' :: (cmd ++ '{' :: (t ++ '}' :: tail)))))))))) =
      some (cmd ++ '{' :: (t ++ e0 :: (ext ++ '}' :: (mid ++
        '\\' :: (cmd ++ '{' :: (t ++ '}' :: (w2 ++ (pyStrip nb ++ '\n' ::
          ('\\' :: (cmd ++ '{' :: (t ++ '}' :: tail))))))))))) := by
    have h := hrf2
    simpa [List.append_assoc] using h
  simp only [replaceSection]
  rw [show pre ++ ('\\' :: cmd) ++ ('{' :: (t ++ e0 :: ext)) ++ ('}' :: mid) ++
       ('\\' :: cmd) ++ ('{' :: t) ++ ('}' :: (w2 ++ c2 :: m2)) ++
       ('\\' :: cmd) ++ ('{' :: t) ++ ('}' :: tail) =
      pre ++ '\\' :: (cmd ++ '{' :: (t ++ e0 :: (ext ++ '}' :: (mid ++
        '\\' :: (cmd ++ '{' :: (t ++ '}' :: (w2 ++ c2 :: (m2 ++
          '\\' :: (cmd ++ '{' :: (t ++ '}' :: tail)))))))))) by
    simp [List.append_assoc]]
  rw [replaceFirst_append_no_bs cmd t nb pre _ hpre]
  rw [replaceFirst_cons_fail (tryAt_of_matchHeader_none hfail)]
  rw [hrf2n]
  simp [List.append_assoc]

/-- Claim C2 fails on the code: with an empty replacement body the second
application is not a no-op.  On `\section{A}\nbody\n\end{document}` with
`new_section_body = ""`, the first application yields
`\section{A}\n\n\end{document}`; applying again, the greedy `\s*` of the
header group absorbs the inserted newline and the replacer appends another
one, yielding `\section{A}\n\n\n\end{document}`. -/
theorem C2_counterexample :
    (replaceSection "section".data "A".data []
      ((replaceSection "section".data "A".data []
        "\\section{A}\nbody\n\\end{document}".data).1)).1 ≠
    (replaceSection "section".data "A".data []
      "\\section{A}\nbody\n\\end{document}".data).1 := by
  decide

/-- Claim C2 (amended): applying `replaceSection` twice with the same
`newBody` is idempotent provided the stripped body is nonempty and contains
no backslash (so the inserted body can neither be absorbed into the header's
trailing whitespace nor contain a boundary token): the first application
produces the patched text, the second application reproduces it byte for
byte, and the commit of the second invocation reports no changes. -/
theorem C2_amended_idempotent (cmd t nb pre w m tail : List Char) (c0 b0 : Char)
    (bs : List Char)
    (hpre : ∀ c ∈ pre, c ≠ '\\')
    (hw : ∀ c ∈ w, pySpace c = true)
    (hc0s : pySpace c0 = false) (hc0 : c0 ≠ '\\')
    (hm : ∀ c ∈ m, c ≠ '\\')
    (hnb : '\\' ∉ nb)
    (hB : pyStrip nb = b0 :: bs) :
    (replaceSection cmd t nb
      (pre ++ ('\\' :: cmd) ++ ('{' :: t) ++ ('}' :: (w ++ c0 :: m)) ++
        ("\\end{document}".data ++ tail)) =
      (pre ++ ('\\' :: cmd) ++ ('{' :: t) ++ ('}' :: w) ++ pyStrip nb ++
        '\n' :: ("\\end{document}".data ++ tail), true)) ∧
    (replaceSection cmd t nb
      (pre ++ ('\\' :: cmd) ++ ('{' :: t) ++ ('}' :: w) ++ pyStrip nb ++
        '\n' :: ("\\end{document}".data ++ tail)) =
      (pre ++ ('\\' :: cmd) ++ ('{' :: t) ++ ('}' :: w) ++ pyStrip nb ++
        '\n' :: ("\\end{document}".data ++ tail), true)) ∧
    (∀ pm pms dg, (update_overleaf_section
        (pre ++ ('\\' :: cmd) ++ ('{' :: t) ++ ('}' :: w) ++ pyStrip nb ++
          '\n' :: ("\\end{document}".data ++ tail)) cmd t nb pm pms dg).result =
      Except.ok SectionOutcome.noChanges) := by
  have hbnd : dropToBoundary cmd ("\\end{document}".data ++ tail) =
      some ("\\end{document}".data ++ tail) := by
    apply dropToBoundary_eq_self_of_boundary
    · simp
    · exact isBoundary_endDoc cmd tail
  -- first application
  have htry1 := tryAt_heading cmd t nb w ("\\end{document}".data ++ tail)
    c0 m hw hc0s hc0 hm hbnd
  have htry1n : tryAt cmd t nb
      ('\\' :: (cmd ++ '{' :: (t ++ '}' :: (w ++ c0 :: (m ++
        ("\\end{document}".data ++ tail)))))) =
      some ('\\' :: (cmd ++ '{' :: (t ++ '}' :: (w ++ (pyStrip nb ++ '\n' ::
        ("\\end{document}".data ++ tail)))))) := by
    simpa [List.append_assoc] using htry1
  have h1 : replaceSection cmd t nb
      (pre ++ ('\\' :: cmd) ++ ('{' :: t) ++ ('}' :: (w ++ c0 :: m)) ++
        ("\\end{document}".data ++ tail)) =
      (pre ++ ('\\' :: cmd) ++ ('{' :: t) ++ ('}' :: w) ++ pyStrip nb ++
        '\n' :: ("\\end{document}".data ++ tail), true) := by
    simp only [replaceSection]
    rw [show pre ++ ('\\' :: cmd) ++ ('{' :: t) ++ ('}' :: (w ++ c0 :: m)) ++
        ("\\end{document}".data ++ tail) =
        pre ++ '\\' :: (cmd ++ '{' :: (t ++ '}' :: (w ++ c0 :: (m ++
          ("\\end{document}".data ++ tail))))) by simp [List.append_assoc]]
    rw [replaceFirst_pre_heading cmd t nb pre _ _ hpre htry1n]
    simp [List.append_assoc]
  -- second application: the stripped body plays the role of the section body
  have hb0s : pySpace b0 = false := pyStrip_head_false hB
  have hb0 : b0 ≠ '\\' := by
    intro he
    apply hnb
    apply pyStrip_subset nb
    rw [hB, ← he]
    exact List.mem_cons_self _ _
  have hbs : ∀ c ∈ bs ++ ['\n'], c ≠ '\\' := by
    intro c hc
    rcases List.mem_append.mp hc with hc | hc
    · intro he
      apply hnb
      apply pyStrip_subset nb
      rw [hB, ← he]
      exact List.mem_cons_of_mem _ hc
    · simp only [List.mem_singleton] at hc
      subst hc
      decide
  have htry2 := tryAt_heading cmd t nb w ("\\end{document}".data ++ tail)
    b0 (bs ++ ['\n']) hw hb0s hb0 hbs hbnd
  have htry2n : tryAt cmd t nb
      ('\\' :: (cmd ++ '{' :: (t ++ '}' :: (w ++ (pyStrip nb ++ '\n' ::
        ("\\end{document}".data ++ tail)))))) =
      some ('\\' :: (cmd ++ '{' :: (t ++ '}' :: (w ++ (pyStrip nb ++ '\n' ::
        ("\\end{document}".data ++ tail)))))) := by
    have h := htry2
    rw [hB] at h ⊢
    simpa [List.append_assoc] using h
  have h2 : replaceSection cmd t nb
      (pre ++ ('\\' :: cmd) ++ ('{' :: t) ++ ('}' :: w) ++ pyStrip nb ++
        '\n' :: ("\\end{document}".data ++ tail)) =
      (pre ++ ('\\' :: cmd) ++ ('{' :: t) ++ ('}' :: w) ++ pyStrip nb ++
        '\n' :: ("\\end{document}".data ++ tail), true) := by
    simp only [replaceSection]
    rw [show pre ++ ('\\' :: cmd) ++ ('{' :: t) ++ ('}' :: w) ++ pyStrip nb ++
        '\n' :: ("\\end{document}".data ++ tail) =
        pre ++ '\\' :: (cmd ++ '{' :: (t ++ '}' :: (w ++ (pyStrip nb ++ '\n' ::
          ("\\end{document}".data ++ tail))))) by simp [List.append_assoc]]
    rw [replaceFirst_pre_heading cmd t nb pre _ _ hpre htry2n]
  refine ⟨h1, h2, ?_⟩
  intro pm pms dg
  have hrf : replaceFirst cmd t nb
      (pre ++ ('\\' :: cmd) ++ ('{' :: t) ++ ('}' :: w) ++ pyStrip nb ++
        '\n' :: ("\\end{document}".data ++ tail)) =
      some (pre ++ ('\\' :: cmd) ++ ('{' :: t) ++ ('}' :: w) ++ pyStrip nb ++
        '\n' :: ("\\end{document}".data ++ tail)) := by
    have h := h2
    simp only [replaceSection] at h
    cases he : replaceFirst cmd t nb
        (pre ++ ('\\' :: cmd) ++ ('{' :: t) ++ ('}' :: w) ++ pyStrip nb ++
          '\n' :: ("\\end{document}".data ++ tail)) with
    | none => rw [he] at h; simp at h
    | some v =>
      rw [he] at h
      simp only [Prod.mk.injEq] at h
      rw [h.1]
  simp only [update_overleaf_section]
  rw [hrf]
  simp

/-- Claim C9: when the requested heading occurs but no candidate boundary
token follows it (a last section in a file without `\end{document}` and with
no later sectioning command), the body match fails, so the section is
reported as not found, the document is unchanged, and no git command runs. -/
theorem C9_no_boundary_not_found (cmd t b pre nb : List Char)
    (hpre : ∀ c ∈ pre, c ≠ '\\') (hcmd : ∀ c ∈ cmd, c ≠ '\\')
    (hti : ∀ c ∈ t, c ≠ '\\') (hb : ∀ c ∈ b, c ≠ '\\') :
    replaceSection cmd t nb (pre ++ ('\\' :: cmd) ++ ('{' :: t) ++ ('}' :: b)) =
      (pre ++ ('\\' :: cmd) ++ ('{' :: t) ++ ('}' :: b), false) ∧
    ∀ pm pms dg, update_overleaf_section (pre ++ ('\\' :: cmd) ++ ('{' :: t) ++ ('}' :: b))
        cmd t nb pm pms dg =
      ⟨Except.ok SectionOutcome.notFound, pre ++ ('\\' :: cmd) ++ ('{' :: t) ++ ('}' :: b),
       []⟩ := by
  have hdtb : dropToBoundary cmd (b.dropWhile pySpace) = none := by
    apply dropToBoundary_none_no_bs
    intro c hc
    exact hb c ((List.dropWhile_suffix pySpace).subset hc)
  have htry : tryAt cmd t nb ('\\' :: (cmd ++ '{' :: (t ++ '}' :: b))) = none := by
    have hm := matchHeaderAt_heading cmd t b
    have hmn : matchHeaderAt cmd t ('\\' :: (cmd ++ '{' :: (t ++ '}' :: b))) =
        some ('\\' :: (cmd ++ '{' :: (t ++ '}' :: b.takeWhile pySpace)),
          b.dropWhile pySpace) := by
      simpa [List.append_assoc] using hm
    simp [tryAt, hmn, hdtb]
  have hinterior : ∀ c ∈ cmd ++ '{' :: (t ++ '}' :: b), c ≠ '\\' := by
    intro c hc
    simp only [List.mem_append, List.mem_cons] at hc
    rcases hc with hc | rfl | hc
    · exact hcmd c hc
    · decide
    · rcases hc with hc | rfl | hc
      · exact hti c hc
      · decide
      · exact hb c hc
  have hrf : replaceFirst cmd t nb
      (pre ++ ('\\' :: cmd) ++ ('{' :: t) ++ ('}' :: b)) = none := by
    rw [show pre ++ ('\\' :: cmd) ++ ('{' :: t) ++ ('}' :: b) =
        pre ++ '\\' :: (cmd ++ '{' :: (t ++ '}' :: b)) by simp [List.append_assoc]]
    rw [replaceFirst_append_no_bs cmd t nb pre _ hpre]
    rw [replaceFirst_cons_fail htry]
    rw [replaceFirst_none_no_bs cmd t nb _ hinterior]
    rfl
  constructor
  · simp only [replaceSection]
    rw [hrf]
  · intro pm pms dg
    simp only [update_overleaf_section]
    rw [hrf]

/-- Claim C3: when the requested title does not occur under the given heading
command (no suffix of the text matches the literal header pattern),
`replaceSection` reports not found, the document stays byte-identical, and
the tool stages and commits nothing. -/
theorem C3_not_found_no_commit (cmd t nb text : List Char)
    (h : noHeaderOcc cmd t text = true) :
    replaceSection cmd t nb text = (text, false) ∧
    ∀ pm pms dg, update_overleaf_section text cmd t nb pm pms dg =
      ⟨Except.ok SectionOutcome.notFound, text, []⟩ := by
  have hrf := noHeaderOcc_replaceFirst cmd t nb text h
  constructor
  · simp [replaceSection, hrf]
  · intro pm pms dg
    simp [update_overleaf_section, hrf]

/-- Claim C6 fails on the code: when both pushes fail, the failure is not the
operation's direct result.  The second `run(["git","push","origin","master"])`
sits outside any handler (src/server.py lines 205-206 and 313-314), so its
`RuntimeError` — carrying the second attempt's diagnostics — propagates out
of the tool function instead of being returned, modelled here by
`Except.error`. -/
theorem C6_counterexample :
    (update_overleaf_file "old".data "new".data false false "diag2".data).result =
      Except.error "diag2".data := by
  rfl

/-- Claim C6 (amended): after a successful commit exactly one push to `main`
is attempted; a fallback push to `master` is attempted exactly when the first
push fails, and never more than once; when both fail, a `RuntimeError`
carrying the second attempt's diagnostic output escapes the tool function
(modelled as `Except.error`) rather than being returned as a status
string. -/
theorem C6_amended_push_fallback (mainOk masterOk : Bool) (masterDiag : List Char) :
    (publishPush mainOk masterOk masterDiag).1.count GitCmd.pushMain = 1 ∧
    (publishPush mainOk masterOk masterDiag).1.count GitCmd.pushMaster =
      (if mainOk then 0 else 1) ∧
    (publishPush mainOk masterOk masterDiag).2 =
      (if mainOk || masterOk then Except.ok () else Except.error masterDiag) := by
  cases mainOk <;> cases masterOk <;>
    refine ⟨by rfl, by rfl, ?_⟩ <;> simp [publishPush]

/-- Claim C7 fails on the code: `clone_overleaf_repo` appends every created
temporary directory to the process-global `_TMPDIRS` list precisely so that
it is not cleaned up, and no exit path of any operation removes it, so the
Workspace is retained in a process-wide container beyond the operation's
lifetime (the defect the spec records in its design notes). -/
theorem C7_workspace_retained (tmpdirs : List Nat) (d : Nat) :
    d ∈ tmpdirsAfterOperation tmpdirs d := by
  simp [tmpdirsAfterOperation]

/-- Claim C10: when repository acquisition fails, `list_overleaf_files`
returns — in the same list-of-strings type as its normal result — exactly the
one-element list holding the clone-failure diagnostic, never raising and
never returning an empty sequence. -/
theorem C10_clone_failure_in_band (e : List Char) (walkFiles : List (List Char)) :
    list_overleaf_files (Except.error e) walkFiles = ["Git clone failed: ".data ++ e] ∧
    (list_overleaf_files (Except.error e) walkFiles).length = 1 := by
  exact ⟨rfl, rfl⟩

theorem splitFirst_not_mem {sep : Char} {xs : List Char} (h : sep ∉ xs) :
    splitFirst sep xs = none := by
  induction xs with
  | nil => rfl
  | cons c cs ih =>
    have hc : ¬ c = sep := by
      intro he
      exact h (by simp [he])
    simp only [splitFirst, if_neg hc]
    rw [ih (fun hm => h (List.mem_cons_of_mem _ hm))]
    rfl

theorem splitFirst_append {sep : Char} {xs : List Char} (ys : List Char) (h : sep ∉ xs) :
    splitFirst sep (xs ++ sep :: ys) = some (xs, ys) := by
  induction xs with
  | nil => simp [splitFirst]
  | cons c cs ih =>
    have hc : ¬ c = sep := by
      intro he
      exact h (by simp [he])
    simp only [List.cons_append, splitFirst, if_neg hc, List.append_eq]
    rw [ih (fun hm => h (List.mem_cons_of_mem _ hm))]
    rfl

theorem hexDigit_mem (n : Nat) : hexDigit n ∈ pctChars := by
  unfold hexDigit
  split <;> decide

theorem digitChar_mem (n : Nat) : digitChar n ∈ pctChars := by
  unfold digitChar
  split <;> decide

theorem natToCharsAux_mem (n : Nat) :
    ∀ acc, (∀ c ∈ acc, c ∈ pctChars) → ∀ c ∈ natToCharsAux n acc, c ∈ pctChars := by
  induction n using Nat.strong_induction_on with
  | _ n ih =>
    intro acc hacc c hc
    unfold natToCharsAux at hc
    split at hc
    · exact hacc c hc
    · next h =>
      refine ih (n / 10) (Nat.div_lt_self (Nat.pos_of_ne_zero h) (by decide))
        (digitChar (n % 10) :: acc) ?_ c hc
      intro d hd
      rcases List.mem_cons.mp hd with rfl | hmem
      · exact digitChar_mem _
      · exact hacc d hmem

theorem natToChars_mem (n : Nat) : ∀ c ∈ natToChars n, c ∈ pctChars := by
  unfold natToChars
  split
  · intro c hc
    simp only [List.mem_singleton] at hc
    subst hc
    decide
  · exact natToCharsAux_mem n [] (by simp)

theorem pyQuote_mem {tok : List Char} {c : Char} (h : c ∈ pyQuote tok) :
    safeChar c = true ∨ c ∈ pctChars := by
  unfold pyQuote at h
  rcases List.mem_flatMap.mp h with ⟨a, _, hc⟩
  by_cases hs : safeChar a = true
  · rw [if_pos hs] at hc
    simp only [List.mem_singleton] at hc
    subst hc
    exact Or.inl hs
  · rw [if_neg hs] at hc
    rcases List.mem_flatMap.mp hc with ⟨b, _, hcb⟩
    right
    simp only [pctByte, List.mem_cons] at hcb
    rcases hcb with rfl | rfl | rfl | h0
    · decide
    · exact hexDigit_mem _
    · exact hexDigit_mem _
    · simp at h0

theorem pyQuote_not_special {tok : List Char} {c : Char} (hsafe : safeChar c = false)
    (hpct : c ∉ pctChars) : c ∉ pyQuote tok := by
  intro h
  rcases pyQuote_mem h with h1 | h1
  · rw [hsafe] at h1
    exact absurd h1 (by decide)
  · exact hpct h1

theorem pctChars_not_sep : ∀ c ∈ pctChars, c ≠ '/' ∧ c ≠ '@' ∧ c ≠ ':' := by decide

theorem portSuffix_no_sep (p : Option Nat) :
    ∀ c ∈ portSuffix p, c ≠ '/' ∧ c ≠ '@' := by
  intro c hc
  cases p with
  | none => simp [portSuffix] at hc
  | some n =>
    simp only [portSuffix, List.mem_cons] at hc
    rcases hc with rfl | hc
    · exact ⟨by decide, by decide⟩
    · have h := pctChars_not_sep c (natToChars_mem n c hc)
      exact ⟨h.1, h.2.1⟩

theorem splitFirstD_append {sep : Char} {xs : List Char} (ys : List Char)
    (h : sep ∉ xs) : splitFirstD sep (xs ++ sep :: ys) = (xs, ys) := by
  rw [splitFirstD, splitFirst_append ys h]

theorem splitFirstD_no_sep {sep : Char} {l : List Char} (h : sep ∉ l) :
    splitFirstD sep l = (l, []) := by
  rw [splitFirstD, splitFirst_not_mem h]

theorem cutAt_append {sep : Char} {xs : List Char} (ys : List Char)
    (h : sep ∉ xs) : cutAt sep (xs ++ sep :: ys) = xs := by
  rw [cutAt, splitFirst_append ys h]

theorem cutAt_no_sep {sep : Char} {l : List Char} (h : sep ∉ l) :
    cutAt sep l = l := by
  rw [cutAt, splitFirst_not_mem h]

/-- Claim C5: the authenticated clone URL built by `clone_overleaf_repo`
carries the fixed username `git`, the token percent-encoded (with `safe=""`)
as the password component, and the base URL's host and port exactly; a space
in the token becomes `%20`. -/
theorem C5_auth_clone_url (u : ParsedUrl) (token : List Char)
    (hh2 : ':' ∉ u.hostname) (hh3 : '/' ∉ u.hostname)
    (hpath : u.path = [] ∨ ∃ ps, u.path = '/' :: ps) :
    parseAuthUrl (authUrl u token) =
      some ⟨"git".data, pyQuote token, u.hostname, portDigits u.port⟩ ∧
    (∀ a b, token = a ++ ' ' :: b →
      pyQuote token = pyQuote a ++ ('%' :: '2' :: '0' :: pyQuote b)) := by
  constructor
  · have hq : '@' ∉ pyQuote token := pyQuote_not_special (by decide) (by decide)
    have hpre : ("https://".data).isPrefixOf (authUrl u token) = true := by
      unfold authUrl
      rw [List.append_assoc]
      exact isPrefixOf_append_self _ _
    have hdrop : (authUrl u token).drop 8 = authNetloc u token ++ u.path := by
      unfold authUrl
      rw [List.append_assoc]
      have h8 : ("https://".data).length = 8 := rfl
      rw [← h8, List.drop_left]
    have hshape : authNetloc u token ++ u.path =
        ("git".data ++ ':' :: pyQuote token) ++ '@' ::
          (u.hostname ++ (portSuffix u.port ++ u.path)) := by
      unfold authNetloc
      simp [List.append_assoc]
    have hsplit1 : splitFirst '@' (authNetloc u token ++ u.path) =
        some ("git".data ++ ':' :: pyQuote token,
              u.hostname ++ (portSuffix u.port ++ u.path)) := by
      rw [hshape]
      apply splitFirst_append
      intro hm
      rcases List.mem_append.mp hm with hm | hm
      · revert hm
        decide
      · rcases List.mem_cons.mp hm with he | hm
        · exact absurd he (by decide)
        · exact hq hm
    have hsplit2 : splitFirstD ':' ("git".data ++ ':' :: pyQuote token) =
        ("git".data, pyQuote token) :=
      splitFirstD_append _ (by decide)
    have hnoslash : '/' ∉ u.hostname ++ portSuffix u.port := by
      intro hm
      rcases List.mem_append.mp hm with hm | hm
      · exact hh3 hm
      · exact (portSuffix_no_sep u.port '/' hm).1 rfl
    have hcut : cutAt '/' (u.hostname ++ (portSuffix u.port ++ u.path)) =
        u.hostname ++ portSuffix u.port := by
      rcases hpath with hp0 | ⟨ps, hp0⟩
      · rw [hp0]
        simp only [List.append_nil]
        rw [← List.append_assoc] at *
        exact cutAt_no_sep hnoslash
      · rw [hp0]
        rw [show u.hostname ++ (portSuffix u.port ++ '/' :: ps) =
            (u.hostname ++ portSuffix u.port) ++ '/' :: ps by
          simp [List.append_assoc]]
        exact cutAt_append ps hnoslash
    have hsplit3 : splitFirstD ':' (u.hostname ++ portSuffix u.port) =
        (u.hostname, portDigits u.port) := by
      cases hport : u.port with
      | none =>
        simp only [portSuffix, List.append_nil]
        rw [splitFirstD_no_sep hh2]
        rfl
      | some p =>
        simp only [portSuffix]
        rw [splitFirstD_append (natToChars p) hh2]
        rfl
    rw [parseAuthUrl, if_pos hpre, hdrop, hsplit1]
    simp only [hcut, hsplit2, hsplit3]
  · intro a b hab
    subst hab
    have henc : (if safeChar ' ' = true then [' ']
        else (utf8Bytes ' ').flatMap pctByte) = ['%', '2', '0'] := by decide
    unfold pyQuote
    rw [List.flatMap_append, List.flatMap_cons, henc]
    simp

theorem section_cmds_alpha : ∀ nm ∈ section_cmds, ∀ c ∈ nm, c.isAlpha = true := by
  decide

theorem section_cmds_ne_nil : ∀ nm ∈ section_cmds, nm ≠ [] := by
  decide

theorem heading_not_boilerplate (nm X : List Char) (hnm : nm ∈ section_cmds) :
    ("%".data.isPrefixOf ('\\' :: (nm ++ X))) = false ∧
    ("\\documentclass".data.isPrefixOf ('\\' :: (nm ++ X))) = false ∧
    ("\\usepackage".data.isPrefixOf ('\\' :: (nm ++ X))) = false ∧
    ("\\begin{document}".data.isPrefixOf ('\\' :: (nm ++ X))) = false ∧
    ("\\end{document}".data.isPrefixOf ('\\' :: (nm ++ X))) = false := by
  simp only [section_cmds, List.mem_cons, List.not_mem_nil, or_false] at hnm
  rcases hnm with rfl | rfl | rfl | rfl | rfl <;>
    refine ⟨?_, ?_, ?_, ?_, ?_⟩ <;> simp [List.isPrefixOf_cons₂]

theorem matchSectionRegex_heading (nm title rest starL : List Char)
    (hne : nm ≠ []) (hal : ∀ c ∈ nm, c.isAlpha = true)
    (hstar : starL = [] ∨ starL = ['*'])
    (htitle : '}' ∉ title) :
    matchSectionRegex ('\\' :: (nm ++ (starL ++ '{' :: (title ++ '}' :: rest)))) =
      some (nm, title) := by
  have htq : ∀ c ∈ title, (c != '}') = true := by
    intro c hc
    have hne2 : c ≠ '}' := fun he => htitle (he ▸ hc)
    simpa using hne2
  have hbrace : braceOnly ('{' :: (title ++ '}' :: rest)) = some title := by
    simp only [braceOnly, if_pos]
    rw [takeWhile_append_eq (fun d => d != '}') title '}' rest htq (by decide),
        dropWhile_append_eq (fun d => d != '}') title '}' rest htq (by decide)]
  have hbt : braceTitle (starL ++ '{' :: (title ++ '}' :: rest)) = some title := by
    rcases hstar with rfl | rfl
    · simpa [braceTitle] using hbrace
    · simpa [braceTitle] using hbrace
  have hhead : ∀ c ∈ starL ++ '{' :: (title ++ '}' :: rest), True := fun _ _ => trivial
  have htw : (nm ++ (starL ++ '{' :: (title ++ '}' :: rest))).takeWhile Char.isAlpha
      = nm := by
    rcases hstar with rfl | rfl
    · simp only [List.nil_append]
      exact takeWhile_append_eq Char.isAlpha nm '{' _ hal (by decide)
    · simp only [List.cons_append, List.nil_append]
      exact takeWhile_append_eq Char.isAlpha nm '*' _ hal (by decide)
  have hdw : (nm ++ (starL ++ '{' :: (title ++ '}' :: rest))).dropWhile Char.isAlpha
      = starL ++ '{' :: (title ++ '}' :: rest) := by
    rcases hstar with rfl | rfl
    · simp only [List.nil_append]
      exact dropWhile_append_eq Char.isAlpha nm '{' _ hal (by decide)
    · simp only [List.cons_append, List.nil_append]
      exact dropWhile_append_eq Char.isAlpha nm '*' _ hal (by decide)
  rcases List.exists_cons_of_ne_nil hne with ⟨a, as, rfl⟩
  simp only [matchSectionRegex, if_pos, htw, hdw, hbt]

theorem previewLine_heading_core (line nm title rest starL : List Char)
    (hnm : nm ∈ section_cmds)
    (hstar : starL = [] ∨ starL = ['*'])
    (htitle : '}' ∉ title)
    (hstrip : pyStrip line = '\\' :: (nm ++ (starL ++ '{' :: (title ++ '}' :: rest)))) :
    previewLine line =
      [[], pyUpper (pyStrip title), List.replicate (pyStrip title).length '-'] := by
  obtain ⟨hp1, hp2, hp3, hp4, hp5⟩ :=
    heading_not_boilerplate nm (starL ++ '{' :: (title ++ '}' :: rest)) hnm
  have hmsr := matchSectionRegex_heading nm title rest starL
    (section_cmds_ne_nil nm hnm) (section_cmds_alpha nm hnm) hstar htitle
  simp only [previewLine, hstrip, hp1, hp2, hp3, hp4, hp5, hmsr]
  simp [hnm]

/-- Claim C8: for an input line whose stripped form is a recognized heading
command (optionally starred) with a brace-delimited title, the preview
renderer emits exactly three lines — a blank line, the upper-cased (stripped)
title, and a dash separator of the title's length — while lines that are
empty after trimming, comment lines, and the boilerplate document-setup
lines are dropped. -/
theorem C8_preview_renderer :
    (∀ line nm title rest starL, nm ∈ section_cmds → (starL = [] ∨ starL = ['*']) →
      '}' ∉ title →
      pyStrip line = '\\' :: (nm ++ (starL ++ '{' :: (title ++ '}' :: rest))) →
      previewLine line =
        [[], pyUpper (pyStrip title), List.replicate (pyStrip title).length '-']) ∧
    (∀ line, pyStrip line = [] → previewLine line = []) ∧
    (∀ line x, pyStrip line = '%' :: x → previewLine line = []) ∧
    (∀ line x, pyStrip line = "\\documentclass".data ++ x → previewLine line = []) ∧
    (∀ line x, pyStrip line = "\\usepackage".data ++ x → previewLine line = []) ∧
    (∀ line x, pyStrip line = "\\begin{document}".data ++ x → previewLine line = []) ∧
    (∀ line x, pyStrip line = "\\end{document}".data ++ x → previewLine line = []) := by
  refine ⟨?_, ?_, ?_, ?_, ?_, ?_, ?_⟩
  · intro line nm title rest starL hnm hstar htitle hstrip
    exact previewLine_heading_core line nm title rest starL hnm hstar htitle hstrip
  · intro line h
    simp [previewLine, h]
  · intro line x h
    simp [previewLine, h]
  · intro line x h
    simp [previewLine, h]
  · intro line x h
    simp [previewLine, h]
  · intro line x h
    simp [previewLine, h]
  · intro line x h
    simp [previewLine, h]

/-! ## Witnesses: the claim theorems evaluated at concrete inputs -/

theorem C1_witness :
    replaceSection "section".data "The".data " New body ".data
      ("Intro\n".data ++ ('\\' :: "section".data) ++
       ('{' :: ("The".data ++ 'o' :: "ry".data)) ++ ('}' :: "\nAlpha\n".data) ++
       ('\\' :: "section".data) ++ ('{' :: "The".data) ++
       ('}' :: (['\n'] ++ 'B' :: "eta\n".data)) ++ ('\\' :: "section".data) ++
       ('{' :: "The".data) ++ ('}' :: "\nGamma\n\\end{document}".data)) =
    ("Intro\n".data ++ ('\\' :: "section".data) ++
     ('{' :: ("The".data ++ 'o' :: "ry".data)) ++ ('}' :: "\nAlpha\n".data) ++
     ('\\' :: "section".data) ++ ('{' :: "The".data) ++ ('}' :: ['\n']) ++
     pyStrip " New body ".data ++
     '\n' :: (('\\' :: "section".data) ++ ('{' :: "The".data) ++
       ('}' :: "\nGamma\n\\end{document}".data)), true) :=
  C1_first_exact_match "section".data "The".data "ry".data "\nAlpha\n".data ['\n']
    "eta\n".data "\nGamma\n\\end{document}".data " New body ".data "Intro\n".data 'o' 'B'
    (by decide) (by decide) (by decide) (by decide) (by decide) (by decide) (by decide)
    (by decide) (by decide) (by decide) (by decide) (by decide)

theorem C2_witness :
    (replaceSection "section".data "A".data " New ".data
      ("P\n".data ++ ('\\' :: "section".data) ++ ('{' :: "A".data) ++
        ('}' :: (['\n'] ++ 'x' :: "y\n".data)) ++
        ("\\end{document}".data ++ "\n".data)) =
      ("P\n".data ++ ('\\' :: "section".data) ++ ('{' :: "A".data) ++
        ('}' :: ['\n']) ++ pyStrip " New ".data ++
        '\n' :: ("\\end{document}".data ++ "\n".data), true)) ∧
    (replaceSection "section".data "A".data " New ".data
      ("P\n".data ++ ('\\' :: "section".data) ++ ('{' :: "A".data) ++
        ('}' :: ['\n']) ++ pyStrip " New ".data ++
        '\n' :: ("\\end{document}".data ++ "\n".data)) =
      ("P\n".data ++ ('\\' :: "section".data) ++ ('{' :: "A".data) ++
        ('}' :: ['\n']) ++ pyStrip " New ".data ++
        '\n' :: ("\\end{document}".data ++ "\n".data), true)) ∧
    ((update_overleaf_section
        ("P\n".data ++ ('\\' :: "section".data) ++ ('{' :: "A".data) ++
          ('}' :: ['\n']) ++ pyStrip " New ".data ++
          '\n' :: ("\\end{document}".data ++ "\n".data))
        "section".data "A".data " New ".data true true []).result =
      Except.ok SectionOutcome.noChanges) :=
  ⟨(C2_amended_idempotent "section".data "A".data " New ".data "P\n".data ['\n']
      "y\n".data "\n".data 'x' 'N' "ew".data (by decide) (by decide) (by decide)
      (by decide) (by decide) (by decide) (by decide)).1,
   (C2_amended_idempotent "section".data "A".data " New ".data "P\n".data ['\n']
      "y\n".data "\n".data 'x' 'N' "ew".data (by decide) (by decide) (by decide)
      (by decide) (by decide) (by decide) (by decide)).2.1,
   (C2_amended_idempotent "section".data "A".data " New ".data "P\n".data ['\n']
      "y\n".data "\n".data 'x' 'N' "ew".data (by decide) (by decide) (by decide)
      (by decide) (by decide) (by decide) (by decide)).2.2 true true []⟩

theorem C3_witness :
    replaceSection "section".data "A".data "NB".data
      "hello \\section{B}\nx\n\\end{document}".data =
      ("hello \\section{B}\nx\n\\end{document}".data, false) ∧
    update_overleaf_section "hello \\section{B}\nx\n\\end{document}".data
      "section".data "A".data "NB".data true true [] =
      ⟨Except.ok SectionOutcome.notFound,
       "hello \\section{B}\nx\n\\end{document}".data, []⟩ :=
  ⟨(C3_not_found_no_commit "section".data "A".data "NB".data
      "hello \\section{B}\nx\n\\end{document}".data (by decide)).1,
   (C3_not_found_no_commit "section".data "A".data "NB".data
      "hello \\section{B}\nx\n\\end{document}".data (by decide)).2 true true []⟩

theorem C4_witness :
    replaceSection "section".data "Experience".data "New stuff".data
      ("x\n".data ++ ('\\' :: "section".data) ++ ('{' :: "Experience".data) ++
        ('}' :: (['\n'] ++ 'O' :: "ld\n".data)) ++
        ("\\section".data ++ ('{' :: "Education".data) ++ ('}' :: "\nSchool\n".data))) =
    ("x\n".data ++ ('\\' :: "section".data) ++ ('{' :: "Experience".data) ++
      ('}' :: ['\n']) ++ pyStrip "New stuff".data ++
      '\n' :: ("\\section".data ++ ('{' :: "Education".data) ++
        ('}' :: "\nSchool\n".data)), true) :=
  C4_frame_effect "section".data "Experience".data "New stuff".data "x\n".data ['\n']
    "Education".data "\nSchool\n".data "ld\n".data 'O'
    (by decide) (by decide) (by decide) (by decide) (by decide)

theorem C5_witness :
    parseAuthUrl (authUrl ⟨"git.overleaf.com".data, some 443, "/proj".data⟩ "ab c".data) =
      some ⟨"git".data, pyQuote "ab c".data, "git.overleaf.com".data,
        portDigits (some 443)⟩ ∧
    pyQuote "ab c".data = pyQuote "ab".data ++ ('%' :: '2' :: '0' :: pyQuote "c".data) :=
  ⟨(C5_auth_clone_url ⟨"git.overleaf.com".data, some 443, "/proj".data⟩ "ab c".data
      (by decide) (by decide) (Or.inr ⟨"proj".data, rfl⟩)).1,
   (C5_auth_clone_url ⟨"git.overleaf.com".data, some 443, "/proj".data⟩ "ab c".data
      (by decide) (by decide) (Or.inr ⟨"proj".data, rfl⟩)).2 "ab".data "c".data rfl⟩

theorem C8_witness :
    previewLine "  \\subsection*{ My Title }x".data =
      [[], pyUpper (pyStrip " My Title ".data),
       List.replicate (pyStrip " My Title ".data).length '-'] ∧
    previewLine "   ".data = [] ∧
    previewLine "% note".data = [] ∧
    previewLine " \\documentclass{article}".data = [] ∧
    previewLine "\\usepackage{x}".data = [] ∧
    previewLine "\\begin{document}".data = [] ∧
    previewLine "\\end{document}".data = [] :=
  ⟨C8_preview_renderer.1 "  \\subsection*{ My Title }x".data "subsection".data
     " My Title ".data "x".data ['*'] (by decide) (Or.inr rfl) (by decide) (by decide),
   C8_preview_renderer.2.1 "   ".data (by decide),
   C8_preview_renderer.2.2.1 "% note".data " note".data (by decide),
   C8_preview_renderer.2.2.2.1 " \\documentclass{article}".data "{article}".data
     (by decide),
   C8_preview_renderer.2.2.2.2.1 "\\usepackage{x}".data "{x}".data (by decide),
   C8_preview_renderer.2.2.2.2.2.1 "\\begin{document}".data [] (by decide),
   C8_preview_renderer.2.2.2.2.2.2 "\\end{document}".data [] (by decide)⟩

theorem C9_witness :
    replaceSection "section".data "A".data "NB".data
      ("pre\n".data ++ ('\\' :: "section".data) ++ ('{' :: "A".data) ++
        ('}' :: "\nthe last body".data)) =
      ("pre\n".data ++ ('\\' :: "section".data) ++ ('{' :: "A".data) ++
        ('}' :: "\nthe last body".data), false) ∧
    update_overleaf_section
      ("pre\n".data ++ ('\\' :: "section".data) ++ ('{' :: "A".data) ++
        ('}' :: "\nthe last body".data)) "section".data "A".data "NB".data true true [] =
      ⟨Except.ok SectionOutcome.notFound,
       "pre\n".data ++ ('\\' :: "section".data) ++ ('{' :: "A".data) ++
        ('}' :: "\nthe last body".data), []⟩ :=
  ⟨(C9_no_boundary_not_found "section".data "A".data "\nthe last body".data
      "pre\n".data "NB".data (by decide) (by decide) (by decide) (by decide)).1,
   (C9_no_boundary_not_found "section".data "A".data "\nthe last body".data
      "pre\n".data "NB".data (by decide) (by decide) (by decide) (by decide)).2
     true true []⟩

end OverleafMcp
